import Mathlib

/-!
Shallow embedding of the AT-channel core of the `attentive` repository
(FreeRTOS channel implementation, `at-freertos.c`), together with the
convenience command façade built on top of it (`at_command`, `at_command_raw`,
`at_send_hex`, `at_config`).

Modelling conventions:
* C byte buffers are `List Nat` (each element one byte; `13 = '\r'`, `0 = NUL`).
* The response buffer `char response[AT_BUF_SIZE]` is a `List Nat` whose length
  is the buffer capacity; `memcpy`/stores are expressed with `take`/`drop`/`set`.
* The reader thread runs concurrently with the waiter.  Its effect on one
  `_at_command` call is summarised by a `wait_outcome`: either the parser
  delivered a response (`handle_response` ran with the collected bytes), the
  wait timed out, or the port was closed behind the waiter's back.  These are
  exactly the three exit conditions of the wait loop in `_at_command`.
* Function pointers (`at_line_scanner_t`, callback sets) become `Option` of
  Lean functions; a NULL pointer is `none`.
-/

namespace Attentive

/-- `#define AT_COMMAND_LENGTH 80` — the stack command-line buffer size. -/
def AT_COMMAND_LENGTH : Nat := 80

/-- Modelled from the spec: the macro `AT_BUF_SIZE` is defined in a header that
is not under `src/` (only its uses in `at-freertos.c` are).  The spec gives the
response-buffer capacity as 512–640 bytes; we use 512, the parser buffer size
the second channel implementation allocates.  No claim depends on the exact
value, only on the symbolic capacity. -/
def AT_BUF_SIZE : Nat := 512

/-- Modelled from the spec: `enum at_response_type` lives in
`attentive/parser.h`, which is not under `src/`.  The spec lists the variants;
`UNKNOWN` is the "no decision; try the next scanner" value, which the channel
code tests with `!type` (so it is the zero enumerator). -/
inductive at_response_type where
  | UNKNOWN : at_response_type
  | INTERMEDIATE : at_response_type
  | FINAL_OK : at_response_type
  | FINAL : at_response_type
  | URC : at_response_type
  | RAWDATA_FOLLOWS : Nat → at_response_type
  | HEXDATA_FOLLOWS : Nat → at_response_type
  deriving DecidableEq

/-- `at_line_scanner_t`: a line scanner receives the assembled line (the
`len` argument of the C callback is the list length). -/
def at_line_scanner_t : Type := List Nat → at_response_type

/-- Parser modes needed by the channel claims.  Modelled from the spec:
`parser.c` is not under `src/`; §4.3 of the spec describes the state machine.
Only the modes the channel-level claims exercise are carried. -/
inductive parser_mode where
  | idle : parser_mode
  | awaitingResponse : parser_mode
  deriving DecidableEq

/-- Modelled from the spec: `struct at_parser` (parser.c, not under `src/`),
(named `at_parser_t` here) restricted to the fields the channel claims mention: the state, the line
buffer, the parser's own response accumulation buffer and the expected data
prompt. -/
structure at_parser_t where
  mode : parser_mode
  line : List Nat
  response : List Nat
  dataprompt : Option (List Nat)

/-- Modelled from the spec: `at_parser_await_response` arms the parser for the
next command — clears the response buffer and moves Idle → AwaitingResponse
(spec §4.3). -/
def at_parser_await_response (parser : at_parser_t) : at_parser_t :=
  { parser with mode := parser_mode.awaitingResponse, response := [] }

/-- Modelled from the spec: `at_parser_reset` returns the parser to Idle,
clears the line buffer and the per-command prompt, and does NOT clear the
response buffer (spec §4.3). -/
def at_parser_reset (parser : at_parser_t) : at_parser_t :=
  { parser with mode := parser_mode.idle, line := [], dataprompt := none }

/-- `struct at_freertos` (at-freertos.c lines 33-52) flattened together with
the embedded `struct at` (at.h): command timeout, inter-command delay, the
response buffer, the open/waiting flags, the per-command transient scanner
(`at->command_scanner`), the caller-installed default scanner
(`at->cbs->scan_line`, `none` when either `cbs` or its member is NULL), and
the owned parser.  Fields not touched by any claim (task/semaphore/UART
handles, `running`, `busy`) are omitted.  The C field `open` is renamed
`opened` (`open` is a Lean keyword). -/
structure at_freertos where
  timeout : Nat
  delay : Nat
  response : List Nat
  opened : Bool
  waiting : Bool
  command_scanner : Option at_line_scanner_t
  cbs_scan_line : Option at_line_scanner_t
  parser : at_parser_t

/-- `handle_response` (at-freertos.c lines 56-66): truncate the delivered
response to `AT_BUF_SIZE - 1` bytes, copy it into the response buffer,
NUL-terminate, clear the waiting flag (and give the semaphore, which has no
state here). -/
def handle_response (buf : List Nat) (len : Nat) (priv : at_freertos) : at_freertos :=
  let len := if len < AT_BUF_SIZE - 1 then len else AT_BUF_SIZE - 1
  { priv with
      response := ((buf.take len) ++ priv.response.drop len).set len 0,
      waiting := false }

/-- `scan_line` (at-freertos.c lines 77-87): consult the per-command transient
scanner, then — if that yielded `AT_RESPONSE_UNKNOWN` (`!type`) — the
caller-installed default scanner. -/
def scan_line (att : at_freertos) (line : List Nat) : at_response_type :=
  let type := at_response_type.UNKNOWN
  let type := match att.command_scanner with
    | some scanner => scanner line
    | none => type
  let type := if type = at_response_type.UNKNOWN then
      match att.cbs_scan_line with
      | some scanner => scanner line
      | none => type
    else type
  type

/-- The spec's wording of the line-classification policy (spec §4.2: "For each
completed line the parser asks, in order: (1) the per-command transient
scanner, (2) the caller-installed default scanner.  The first to return a
non-Unknown classification wins.").  Stated separately from `scan_line`, which
is translated from the code, so the two can be compared. -/
def scan_line_spec (cs dflt : Option at_line_scanner_t) (line : List Nat) :
    at_response_type :=
  match cs with
  | some s =>
    if s line ≠ at_response_type.UNKNOWN then s line
    else
      match dflt with
      | some d => d line
      | none => at_response_type.UNKNOWN
  | none =>
    match dflt with
    | some d => d line
    | none => at_response_type.UNKNOWN

/-- Outcome of the wait loop in `_at_command` (at-freertos.c lines 284-289):
the reader thread delivered a response (ran `handle_response` with the
collected bytes), the timeout budget ran out with `waiting` still set, or the
port was closed behind the waiter's back. -/
inductive wait_outcome where
  | delivered : List Nat → wait_outcome
  | timedout : wait_outcome
  | closed : wait_outcome

/-- Result of a `command`-family call: the channel state afterwards, the
returned pointer (`none` = NULL, `some r` = the response buffer contents) and
the sequence of UART writes performed. -/
structure command_result where
  st : at_freertos
  result : Option (List Nat)
  sent : List (List Nat)

/-- `_at_command` (at-freertos.c lines 252-312).  Bail out if the port is
closed; otherwise delay, arm the parser, write the command bytes, wait for a
response (the concurrent part is summarised by `w`), then classify the exit:
port closed → NULL; still waiting → show residual, reset the parser, NULL;
otherwise the response arrived.  In every non-bailout exit the per-command
scanner is cleared. -/
def _at_command (priv : at_freertos) (data : List Nat) (w : wait_outcome) :
    command_result :=
  if priv.opened = false then
    { st := priv, result := none, sent := [] }
  else
    let priv := { priv with parser := at_parser_await_response priv.parser }
    let priv := { priv with waiting := true }
    match w with
    | wait_outcome.closed =>
      let priv := { priv with opened := false }
      { st := { priv with command_scanner := none }, result := none, sent := [data] }
    | wait_outcome.timedout =>
      let priv := { priv with parser := at_parser_reset priv.parser }
      { st := { priv with command_scanner := none }, result := none, sent := [data] }
    | wait_outcome.delivered buf =>
      let priv := handle_response buf buf.length priv
      { st := { priv with command_scanner := none }, result := some priv.response,
        sent := [data] }

/-- `at_command` (at-freertos.c lines 314-338).  The printf formatting is
outside the model: `line` is the full format expansion
(`len = vsnprintf(...)` is its length).  If `len >= sizeof(line)-1` the call
bails out with NULL before transmitting; otherwise `'\r'` (13) is appended and
the line is handed to `_at_command`. -/
def at_command (priv : at_freertos) (line : List Nat) (w : wait_outcome) :
    command_result :=
  let len := line.length
  if AT_COMMAND_LENGTH - 1 ≤ len then
    { st := priv, result := none, sent := [] }
  else
    _at_command priv (line ++ [13]) w

/-- `at_command_raw` (at-freertos.c lines 340-348): log, then `_at_command`. -/
def at_command_raw (priv : at_freertos) (data : List Nat) (w : wait_outcome) :
    command_result :=
  _at_command priv data w

/-- `_at_send` (at-freertos.c lines 350-365): false without writing if the
port is closed; otherwise one UART write of `data`, succeeding iff the UART
accepted the full length.  `accepted` is the byte count the UART write call
returned. -/
def _at_send (priv : at_freertos) (accepted : Nat) (data : List Nat) :
    Bool × List (List Nat) :=
  if priv.opened = false then (false, [])
  else (accepted == data.length, [data])

/-- `byte_to_hex` (at-freertos.c lines 400-406): two hex characters, most
significant nibble first, digits `'0'..'9'` (48-57) and uppercase `'A'..'F'`
(65-70). -/
def hex_digit (h : Nat) : Nat :=
  if h < 10 then 48 + h else 65 + h - 10

/-- The two-character encoding of one byte: `hex[0]` is the high nibble,
`hex[1]` the low nibble (at-freertos.c lines 400-406). -/
def byte_to_hex (byte : Nat) : List Nat :=
  [hex_digit ((byte / 16) % 16), hex_digit (byte % 16)]

/-- Hex encoding of a byte string: two output characters per input byte. -/
def hexEncode (data : List Nat) : List Nat :=
  data.flatMap byte_to_hex

/-- Value of one hex character (inverse of `hex_digit` on its range). -/
def hexVal (c : Nat) : Nat :=
  if c ≤ 57 then c - 48 else c - 55

/-- Decoder for `hexEncode`: consume the characters in pairs, high nibble
first. -/
def hexDecode : List Nat → List Nat
  | h :: l :: rest => (16 * hexVal h + hexVal l) :: hexDecode rest
  | _ => []

/-- The chunking loop of `at_send_hex` (at-freertos.c lines 415-429): take up
to `sizeof(line)/2 = 40` input bytes, hex-encode them into the line buffer,
`_at_send` the encoded chunk, stop with `false` on the first failed write.
`accept k` is the byte count the UART returned for the `k`-th write; the
second component collects the writes actually issued. -/
def at_send_hex_go (priv : at_freertos) (accept : Nat → Nat) :
    List Nat → Nat → Bool × List (List Nat)
  | [], _ => (true, [])
  | b :: rest, k =>
    let chunk := (b :: rest).take (AT_COMMAND_LENGTH / 2)
    let line := hexEncode chunk
    let s := _at_send priv (accept k) line
    if s.1 then
      let r := at_send_hex_go priv accept ((b :: rest).drop (AT_COMMAND_LENGTH / 2)) (k + 1)
      (r.1, s.2 ++ r.2)
    else
      (false, s.2)
  termination_by data _ => data.length
  decreasing_by
    simp only [List.length_drop, List.length_cons, AT_COMMAND_LENGTH]
    omega

/-- `at_send_hex` (at-freertos.c lines 408-432). -/
def at_send_hex (priv : at_freertos) (accept : Nat → Nat) (data : List Nat) :
    Bool × List (List Nat) :=
  at_send_hex_go priv accept data 0

/-- The loop body of `at_config` (at-freertos.c lines 436-455), one iteration
per unit of remaining fuel.  `resp k` is the result of the `k`-th `at_command`
issued on the channel (NULL or the response string); each iteration consumes
the probe response and, on mismatch, one further (ignored) response for the
set command.  `expected` is the string built by
`snprintf(expected, 32, "+%s: %s", option, value)`; the comparison
`strncmp(response, expected, strlen(expected)) == 0` is a prefix test. -/
def at_config_loop (expected : List Nat) (resp : Nat → Option (List Nat)) :
    Nat → Nat → Int
  | 0, _ => 0
  | rem + 1, k =>
    match resp k with
    | none => -2
    | some response =>
      if 32 ≤ expected.length then -1
      else if expected.isPrefixOf response then 0
      else at_config_loop expected resp rem (k + 2)

/-- `at_config` (at-freertos.c lines 434-458).  `option` and `value` are byte
strings; `43 = '+'`, `58 = ':'`, `32 = ' '`. -/
def at_config (option value : List Nat) (attempts : Nat)
    (resp : Nat → Option (List Nat)) : Int :=
  at_config_loop ([43] ++ option ++ [58, 32] ++ value) resp attempts 0

/-- A concrete open channel state used by the witnesses. -/
def parser0 : at_parser_t :=
  { mode := parser_mode.idle, line := [], response := [], dataprompt := none }

/-- Open channel, empty response buffer, no scanners armed. -/
def st_open : at_freertos :=
  { timeout := 2, delay := 0, response := List.replicate AT_BUF_SIZE 0,
    opened := true, waiting := false, command_scanner := none,
    cbs_scan_line := none, parser := parser0 }

/-- Closed channel with a per-command scanner armed. -/
def st_closed : at_freertos :=
  { st_open with
    opened := false,
    command_scanner := some (fun _ => at_response_type.FINAL) }

/-! ## Theorems -/

/-- C1: the code bug exhibited at a failing input.  `at_config` with
`option = "CIPMUX"`, `value = "1"`, one attempt, and the probe answered with
the non-matching response `"+X"`: the attempt loop exhausts without a match
and the code returns `0`, although the claim (and the header's contract
"Zero on success, -1 on failure") requires `-1` on exhaustion. -/
theorem at_config_c1_exhaustion_returns_zero :
    at_config [67, 73, 80, 77, 85, 88] [49] 1 (fun _ => some [43, 88]) = 0 := by
  decide

/-- C2 counterexample: a format expansion of exactly 79 bytes.  The resulting
line including the trailing carriage return is 80 bytes — within the claim's
bound — yet `at_command` transmits nothing and returns NULL. -/
theorem at_command_c2_counterexample :
    (List.replicate 79 65).length + 1 ≤ 80 ∧
    (at_command st_open (List.replicate 79 65) (wait_outcome.delivered [])).sent = [] ∧
    (at_command st_open (List.replicate 79 65) (wait_outcome.delivered [])).result = none := by
  refine ⟨by decide, rfl, rfl⟩

/-- C2 (amended): with the port open, `at_command` transmits the formatted
text plus a trailing carriage return when the line including that byte is at
most 79 bytes (formatted text at most 78 bytes), and returns NULL without
transmitting anything when the formatted text is 79 bytes or longer. -/
theorem at_command_c2_amended (st : at_freertos) (line : List Nat)
    (w : wait_outcome) (hopen : st.opened = true) :
    (line.length + 1 ≤ AT_COMMAND_LENGTH - 1 →
      (at_command st line w).sent = [line ++ [13]]) ∧
    (AT_COMMAND_LENGTH - 1 < line.length + 1 →
      (at_command st line w).sent = [] ∧ (at_command st line w).result = none) := by
  have hA : AT_COMMAND_LENGTH = 80 := rfl
  constructor
  · intro hle
    have h1 : ¬(AT_COMMAND_LENGTH - 1 ≤ line.length) := by omega
    cases w <;> simp [at_command, _at_command, h1, hopen]
  · intro hgt
    have h1 : AT_COMMAND_LENGTH - 1 ≤ line.length := by omega
    simp [at_command, h1]

/-- C2 witness: a one-byte command goes out with the carriage return
appended. -/
theorem at_command_c2_amended_witness :
    st_open.opened = true ∧
    ((([65] : List Nat).length + 1 ≤ AT_COMMAND_LENGTH - 1 →
        (at_command st_open [65] wait_outcome.timedout).sent = [[65] ++ [13]]) ∧
      (AT_COMMAND_LENGTH - 1 < ([65] : List Nat).length + 1 →
        (at_command st_open [65] wait_outcome.timedout).sent = [] ∧
        (at_command st_open [65] wait_outcome.timedout).result = none)) :=
  ⟨rfl, at_command_c2_amended st_open [65] wait_outcome.timedout rfl⟩

/-- C4: a `command`-family call made while the port is not open returns NULL,
transmits nothing, and leaves the whole channel state — parser included —
untouched. -/
theorem at_command_c4_port_closed (st : at_freertos) (line data : List Nat)
    (w : wait_outcome) (hclosed : st.opened = false) :
    at_command st line w = { st := st, result := none, sent := [] } ∧
    at_command_raw st data w = { st := st, result := none, sent := [] } := by
  constructor
  · by_cases h : AT_COMMAND_LENGTH - 1 ≤ line.length
    · simp [at_command, h]
    · simp [at_command, _at_command, h, hclosed]
  · simp [at_command_raw, _at_command, hclosed]

/-- C4 witness: a concrete closed channel. -/
theorem at_command_c4_port_closed_witness :
    st_closed.opened = false ∧
    (at_command st_closed [65] wait_outcome.timedout =
        { st := st_closed, result := none, sent := [] } ∧
      at_command_raw st_closed [66] wait_outcome.timedout =
        { st := st_closed, result := none, sent := [] }) :=
  ⟨rfl, at_command_c4_port_closed st_closed [65] [66] wait_outcome.timedout rfl⟩

/-- C5: the channel's line classification consults the per-command transient
scanner first and the caller-installed default scanner second; the result is
the first non-Unknown classification, and it is Unknown exactly when every
installed scanner returns Unknown. -/
theorem scan_line_c5 (st : at_freertos) (line : List Nat) :
    scan_line st line = scan_line_spec st.command_scanner st.cbs_scan_line line ∧
    (scan_line st line = at_response_type.UNKNOWN ↔
      (∀ f, st.command_scanner = some f → f line = at_response_type.UNKNOWN) ∧
      (∀ f, st.cbs_scan_line = some f → f line = at_response_type.UNKNOWN)) := by
  cases hcs : st.command_scanner with
  | none =>
    cases hdf : st.cbs_scan_line with
    | none => simp [scan_line, scan_line_spec, hcs, hdf]
    | some d => simp [scan_line, scan_line_spec, hcs, hdf]
  | some s =>
    cases hdf : st.cbs_scan_line with
    | none =>
      by_cases h : s line = at_response_type.UNKNOWN <;>
        simp [scan_line, scan_line_spec, hcs, hdf, h]
    | some d =>
      by_cases h : s line = at_response_type.UNKNOWN <;>
        simp [scan_line, scan_line_spec, hcs, hdf, h]

/-- C9: a call rejected because the port is closed leaves the armed
per-command scanner in place; a call that proceeds past transmission clears
it. -/
theorem at_command_c9_scanner_preserved (st st2 : at_freertos)
    (line data data2 : List Nat) (w w2 : wait_outcome)
    (hclosed : st.opened = false) (hopen : st2.opened = true) :
    (at_command st line w).st.command_scanner = st.command_scanner ∧
    (at_command_raw st data w).st.command_scanner = st.command_scanner ∧
    (at_command_raw st2 data2 w2).st.command_scanner = none := by
  refine ⟨?_, ?_, ?_⟩
  · by_cases h : AT_COMMAND_LENGTH - 1 ≤ line.length
    · simp [at_command, h]
    · simp [at_command, _at_command, h, hclosed]
  · simp [at_command_raw, _at_command, hclosed]
  · cases w2 <;> simp [at_command_raw, _at_command, hopen]

/-- C9 witness: the closed channel keeps its armed scanner; the open channel
has it consumed. -/
theorem at_command_c9_scanner_preserved_witness :
    st_closed.opened = false ∧ st_open.opened = true ∧
    ((at_command st_closed [65] wait_outcome.timedout).st.command_scanner =
        st_closed.command_scanner ∧
      (at_command_raw st_closed [66] wait_outcome.timedout).st.command_scanner =
        st_closed.command_scanner ∧
      (at_command_raw st_open [67] wait_outcome.timedout).st.command_scanner = none) :=
  ⟨rfl, rfl,
    at_command_c9_scanner_preserved st_closed st_open [65] [66] [67]
      wait_outcome.timedout wait_outcome.timedout rfl rfl⟩

/-- C10: with the port open, `at_send_hex` on zero bytes issues no UART write
and returns true. -/
theorem at_send_hex_c10_empty (st : at_freertos) (accept : Nat → Nat)
    (_hopen : st.opened = true) :
    at_send_hex st accept [] = (true, []) := by
  simp [at_send_hex, at_send_hex_go]

/-- C10 witness. -/
theorem at_send_hex_c10_empty_witness :
    st_open.opened = true ∧ at_send_hex st_open (fun _ => 0) [] = (true, []) :=
  ⟨rfl, at_send_hex_c10_empty st_open (fun _ => 0) rfl⟩

/-- Helper: what `handle_response` does to the response buffer.  With the
buffer at its C capacity and a delivered chunk of at least `len` bytes, the
first `min len (AT_BUF_SIZE - 1)` bytes of the chunk are stored, a NUL is
written right after them, the capacity is unchanged, and the waiting flag is
cleared (delivery is signalled as normal completion, never as an error). -/
theorem handle_response_spec (buf : List Nat) (len : Nat) (priv : at_freertos)
    (hcap : priv.response.length = AT_BUF_SIZE) (hlen : len ≤ buf.length) :
    (handle_response buf len priv).response.length = AT_BUF_SIZE ∧
    (handle_response buf len priv).response[min len (AT_BUF_SIZE - 1)]? = some 0 ∧
    (handle_response buf len priv).response.take (min len (AT_BUF_SIZE - 1)) =
      buf.take (min len (AT_BUF_SIZE - 1)) ∧
    (handle_response buf len priv).waiting = false := by
  have hA : AT_BUF_SIZE = 512 := rfl
  set m := min len (AT_BUF_SIZE - 1) with hm
  have hmb : m ≤ buf.length := le_trans (min_le_left _ _) hlen
  have hif : (if len < AT_BUF_SIZE - 1 then len else AT_BUF_SIZE - 1) = m := by
    rw [hm, Nat.min_def]
    split <;> split <;> omega
  have hresp : (handle_response buf len priv).response =
      ((buf.take m) ++ priv.response.drop m).set m 0 := by
    simp only [handle_response, hif]
  have htm : (buf.take m).length = m := by
    rw [List.length_take]
    omega
  have hlenbase : ((buf.take m) ++ priv.response.drop m).length = AT_BUF_SIZE := by
    rw [List.length_append, htm, List.length_drop, hcap]
    omega
  have hmlt : m < ((buf.take m) ++ priv.response.drop m).length := by
    rw [hlenbase]
    omega
  refine ⟨?_, ?_, ?_, ?_⟩
  · rw [hresp, List.length_set, hlenbase]
  · rw [hresp]
    exact List.getElem?_set_self hmlt
  · rw [hresp, List.set_eq_take_cons_drop _ hmlt]
    have h1 : ((buf.take m) ++ priv.response.drop m).take m = buf.take m :=
      List.take_left' htm
    rw [List.take_left' (by rw [List.length_take, hlenbase]; omega), h1]
  · simp only [handle_response]

/-- Helper: the only way `_at_command` returns non-NULL is the
response-delivered exit, and the returned buffer then carries a NUL
terminator strictly inside the capacity. -/
theorem _at_command_result_terminated (st : at_freertos) (data : List Nat)
    (w : wait_outcome) (hcap : st.response.length = AT_BUF_SIZE) :
    ∀ r, (_at_command st data w).result = some r →
      ∃ i, i < AT_BUF_SIZE ∧ r[i]? = some 0 := by
  intro r hr
  by_cases hop : st.opened = false
  · simp [_at_command, hop] at hr
  · cases w with
    | closed => simp [_at_command, hop] at hr
    | timedout => simp [_at_command, hop] at hr
    | delivered buf =>
      simp [_at_command, hop] at hr
      have hA : AT_BUF_SIZE = 512 := rfl
      refine ⟨min buf.length (AT_BUF_SIZE - 1), by omega, ?_⟩
      rw [← hr]
      exact (handle_response_spec buf buf.length
        { st with
            parser := at_parser_await_response st.parser, waiting := true }
        hcap le_rfl).2.1

/-- C3: an `at_command` or `at_command_raw` call made with the port open whose
wait times out resets the (armed) parser, clears the per-command scanner, and
returns NULL. -/
theorem at_command_c3_timeout (st : at_freertos) (line data : List Nat)
    (hopen : st.opened = true) (hlen : line.length < AT_COMMAND_LENGTH - 1) :
    ((at_command st line wait_outcome.timedout).result = none ∧
      (at_command st line wait_outcome.timedout).st.parser =
        at_parser_reset (at_parser_await_response st.parser) ∧
      (at_command st line wait_outcome.timedout).st.command_scanner = none) ∧
    ((at_command_raw st data wait_outcome.timedout).result = none ∧
      (at_command_raw st data wait_outcome.timedout).st.parser =
        at_parser_reset (at_parser_await_response st.parser) ∧
      (at_command_raw st data wait_outcome.timedout).st.command_scanner = none) := by
  have h1 : ¬(AT_COMMAND_LENGTH - 1 ≤ line.length) := by omega
  simp [at_command, at_command_raw, _at_command, h1, hopen]

/-- C3 witness. -/
theorem at_command_c3_timeout_witness :
    st_open.opened = true ∧ ([65] : List Nat).length < AT_COMMAND_LENGTH - 1 ∧
    (((at_command st_open [65] wait_outcome.timedout).result = none ∧
        (at_command st_open [65] wait_outcome.timedout).st.parser =
          at_parser_reset (at_parser_await_response st_open.parser) ∧
        (at_command st_open [65] wait_outcome.timedout).st.command_scanner = none) ∧
      ((at_command_raw st_open [66] wait_outcome.timedout).result = none ∧
        (at_command_raw st_open [66] wait_outcome.timedout).st.parser =
          at_parser_reset (at_parser_await_response st_open.parser) ∧
        (at_command_raw st_open [66] wait_outcome.timedout).st.command_scanner =
          none)) :=
  ⟨rfl, by decide, at_command_c3_timeout st_open [65] [66] rfl (by decide)⟩

/-- C7: whenever `at_command` or `at_command_raw` returns non-NULL, the
returned response buffer carries a NUL terminator at an offset strictly less
than its capacity. -/
theorem at_command_c7_nul_terminated (st : at_freertos) (line data : List Nat)
    (w : wait_outcome) (hcap : st.response.length = AT_BUF_SIZE) :
    (∀ r, (at_command st line w).result = some r →
      ∃ i, i < AT_BUF_SIZE ∧ r[i]? = some 0) ∧
    (∀ r, (at_command_raw st data w).result = some r →
      ∃ i, i < AT_BUF_SIZE ∧ r[i]? = some 0) := by
  constructor
  · intro r hr
    by_cases h : AT_COMMAND_LENGTH - 1 ≤ line.length
    · simp [at_command, h] at hr
    · rw [at_command] at hr
      simp only [h, if_false] at hr
      exact _at_command_result_terminated st (line ++ [13]) w hcap r hr
  · intro r hr
    exact _at_command_result_terminated st data w hcap r hr

/-- C7 witness: a delivered two-byte response yields a buffer with an interior
NUL. -/
theorem at_command_c7_nul_terminated_witness :
    st_open.response.length = AT_BUF_SIZE ∧
    (∃ i, i < AT_BUF_SIZE ∧
      ((at_command_raw st_open [65]
          (wait_outcome.delivered [66, 67])).result.getD [])[i]? = some 0) :=
  ⟨by simp [st_open],
    (at_command_c7_nul_terminated st_open [65] [65]
        (wait_outcome.delivered [66, 67]) (by simp [st_open])).2
      ((at_command_raw st_open [65]
          (wait_outcome.delivered [66, 67])).result.getD []) rfl⟩

/-- C8: a delivered response of length `len` is stored truncated to the first
`min len (AT_BUF_SIZE - 1)` bytes, NUL-terminated right after them; the rest
is silently discarded and delivery is still signalled as normal completion
(the waiting flag is cleared), never as an error. -/
theorem handle_response_c8_truncation (buf : List Nat) (len : Nat)
    (priv : at_freertos) (hcap : priv.response.length = AT_BUF_SIZE)
    (hlen : len ≤ buf.length) :
    (handle_response buf len priv).response.take (min len (AT_BUF_SIZE - 1)) =
      buf.take (min len (AT_BUF_SIZE - 1)) ∧
    (handle_response buf len priv).response[min len (AT_BUF_SIZE - 1)]? = some 0 ∧
    (handle_response buf len priv).waiting = false := by
  obtain ⟨-, h2, h3, h4⟩ := handle_response_spec buf len priv hcap hlen
  exact ⟨h3, h2, h4⟩

/-- C8 witness: a 600-byte response against the 512-byte buffer is truncated
to 511 bytes plus the terminator. -/
theorem handle_response_c8_truncation_witness :
    st_open.response.length = AT_BUF_SIZE ∧ 600 ≤ (List.replicate 600 65).length ∧
    ((handle_response (List.replicate 600 65) 600 st_open).response.take
        (min 600 (AT_BUF_SIZE - 1)) =
      (List.replicate 600 65).take (min 600 (AT_BUF_SIZE - 1)) ∧
    (handle_response (List.replicate 600 65) 600 st_open).response[min 600
        (AT_BUF_SIZE - 1)]? = some 0 ∧
    (handle_response (List.replicate 600 65) 600 st_open).waiting = false) :=
  ⟨by simp [st_open], by simp only [List.length_replicate, le_refl],
    handle_response_c8_truncation (List.replicate 600 65) 600 st_open
      (by simp [st_open]) (by simp only [List.length_replicate, le_refl])⟩

/-- Helper: a hex digit character is a decimal digit or an uppercase
`A`-`F`. -/
theorem hex_digit_range (h : Nat) (hh : h < 16) :
    (48 ≤ hex_digit h ∧ hex_digit h ≤ 57) ∨
      (65 ≤ hex_digit h ∧ hex_digit h ≤ 70) := by
  unfold hex_digit
  split <;> omega

/-- Helper: both characters emitted for one byte are hex characters. -/
theorem byte_to_hex_range (b : Nat) :
    ∀ c ∈ byte_to_hex b, (48 ≤ c ∧ c ≤ 57) ∨ (65 ≤ c ∧ c ≤ 70) := by
  intro c hc
  simp only [byte_to_hex, List.mem_cons, List.not_mem_nil, or_false] at hc
  rcases hc with h | h <;> subst h <;>
    exact hex_digit_range _ (Nat.mod_lt _ (by omega))

/-- Helper: every character of a hex encoding is a hex character. -/
theorem hexEncode_range (data : List Nat) :
    ∀ c ∈ hexEncode data, (48 ≤ c ∧ c ≤ 57) ∨ (65 ≤ c ∧ c ≤ 70) := by
  intro c hc
  rw [hexEncode, List.mem_flatMap] at hc
  obtain ⟨b, -, hcb⟩ := hc
  exact byte_to_hex_range b c hcb

/-- Helper: the hex encoding has two characters per input byte. -/
theorem hexEncode_length (data : List Nat) :
    (hexEncode data).length = 2 * data.length := by
  induction data with
  | nil => rfl
  | cons b rest ih =>
    have hstep : hexEncode (b :: rest) = byte_to_hex b ++ hexEncode rest := rfl
    have hb : (byte_to_hex b).length = 2 := rfl
    rw [hstep, List.length_append, ih, List.length_cons, hb]
    omega

/-- Helper: hex encoding distributes over append. -/
theorem hexEncode_append (l1 l2 : List Nat) :
    hexEncode (l1 ++ l2) = hexEncode l1 ++ hexEncode l2 :=
  List.flatMap_append l1 l2 _

/-- Helper: `hexVal` inverts `hex_digit` on nibbles. -/
theorem hexVal_hex_digit (h : Nat) (hh : h < 16) : hexVal (hex_digit h) = h := by
  unfold hexVal hex_digit
  by_cases h10 : h < 10 <;> simp only [h10, if_true, if_false] <;> split <;> omega

/-- Helper: decoding inverts encoding on byte strings (each element one
byte). -/
theorem hexDecode_hexEncode (data : List Nat) (hb : ∀ b ∈ data, b < 256) :
    hexDecode (hexEncode data) = data := by
  induction data with
  | nil => rfl
  | cons b rest ih =>
    have hb256 : b < 256 := hb b (List.mem_cons_self b rest)
    have hrest : ∀ x ∈ rest, x < 256 := fun x hx => hb x (List.mem_cons_of_mem _ hx)
    rw [hexEncode, List.flatMap_cons]
    show hexDecode (hex_digit (b / 16 % 16) :: hex_digit (b % 16) :: hexEncode rest) = b :: rest
    rw [hexDecode, ih hrest]
    have h1 : hexVal (hex_digit (b / 16 % 16)) = b / 16 % 16 :=
      hexVal_hex_digit _ (Nat.mod_lt _ (by omega))
    have h2 : hexVal (hex_digit (b % 16)) = b % 16 :=
      hexVal_hex_digit _ (Nat.mod_lt _ (by omega))
    rw [h1, h2]
    congr 1
    omega

/-- Helper: one step of the `at_send_hex` chunk loop with the port open. -/
theorem at_send_hex_go_cons (priv : at_freertos) (accept : Nat → Nat)
    (hopen : priv.opened = true) (b : Nat) (rest : List Nat) (k : Nat) :
    at_send_hex_go priv accept (b :: rest) k =
      if accept k = (hexEncode ((b :: rest).take 40)).length then
        ((at_send_hex_go priv accept ((b :: rest).drop 40) (k + 1)).1,
          hexEncode ((b :: rest).take 40) ::
            (at_send_hex_go priv accept ((b :: rest).drop 40) (k + 1)).2)
      else (false, [hexEncode ((b :: rest).take 40)]) := by
  conv_lhs => rw [at_send_hex_go]
  simp only [_at_send, hopen, show (AT_COMMAND_LENGTH / 2) = 40 from rfl]
  by_cases hacc : accept k = (hexEncode ((b :: rest).take 40)).length <;>
    simp [hacc]

/-- Helper: full specification of the chunk loop, for any start index. -/
theorem at_send_hex_go_spec (priv : at_freertos) (accept : Nat → Nat)
    (hopen : priv.opened = true) :
    ∀ n data k, data.length ≤ n →
    ((at_send_hex_go priv accept data k).1 = true ↔
      ∀ j, 40 * j < data.length →
        accept (k + j) = 2 * min 40 (data.length - 40 * j)) ∧
    ((at_send_hex_go priv accept data k).1 = true →
      (at_send_hex_go priv accept data k).2.flatten = hexEncode data) ∧
    (∀ w ∈ (at_send_hex_go priv accept data k).2,
      w.length ≤ 80 ∧ ∀ c ∈ w, (48 ≤ c ∧ c ≤ 57) ∨ (65 ≤ c ∧ c ≤ 70)) := by
  intro n
  induction n with
  | zero =>
    intro data k hn
    have hdata : data = [] := List.length_eq_zero.mp (Nat.le_zero.mp hn)
    subst hdata
    simp [at_send_hex_go, hexEncode]
  | succ n ih =>
    intro data k hn
    match data with
    | [] => simp [at_send_hex_go, hexEncode]
    | b :: rest =>
      have hN : (b :: rest).length = rest.length + 1 := List.length_cons b rest
      have hchunklen : (hexEncode ((b :: rest).take 40)).length =
          2 * min 40 (rest.length + 1) := by
        rw [hexEncode_length, List.length_take, hN]
      have hdroplen : ((b :: rest).drop 40).length = rest.length + 1 - 40 := by
        rw [List.length_drop, hN]
      have hrec := ih ((b :: rest).drop 40) (k + 1) (by rw [hdroplen]; omega)
      obtain ⟨ih1, ih2, ih3⟩ := hrec
      rw [at_send_hex_go_cons priv accept hopen b rest k]
      by_cases hacc : accept k = (hexEncode ((b :: rest).take 40)).length
      · simp only [hacc, if_pos rfl, if_true]
        refine ⟨?_, ?_, ?_⟩
        · constructor
          · intro h j hj
            match j with
            | 0 =>
              simpa [hN] using hacc.trans hchunklen
            | j' + 1 =>
              have h40 : 40 * j' < ((b :: rest).drop 40).length := by
                rw [hdroplen]
                rw [hN] at hj
                omega
              have := ih1.mp h j' h40
              have hidx : k + 1 + j' = k + (j' + 1) := by omega
              rw [hidx] at this
              rw [this, hdroplen, hN]
              congr 1
              omega
          · intro h
            apply ih1.mpr
            intro j' hj'
            rw [hdroplen] at hj'
            have hj : 40 * (j' + 1) < (b :: rest).length := by rw [hN]; omega
            have := h (j' + 1) hj
            have hidx : k + (j' + 1) = k + 1 + j' := by omega
            rw [hidx] at this
            rw [this, hN, hdroplen]
            congr 1
            omega
        · intro h
          simp only [List.flatten_cons]
          rw [ih2 h, ← hexEncode_append, List.take_append_drop]
        · intro w hw
          rcases List.mem_cons.mp hw with hweq | hwmem
          · subst hweq
            constructor
            · rw [hchunklen]; omega
            · exact hexEncode_range _
          · exact ih3 w hwmem
      · simp only [hacc, if_neg hacc, if_false]
        refine ⟨?_, ?_, ?_⟩
        · simp only [show (false = true) = False from by simp, false_iff]
          intro h
          apply hacc
          have h0 : 40 * 0 < (b :: rest).length := by rw [hN]; omega
          have := h 0 h0
          simp only [Nat.add_zero, Nat.mul_zero, Nat.sub_zero] at this
          rw [this, hchunklen, hN]
        · simp
        · intro w hw
          simp only [List.mem_singleton] at hw
          subst hw
          constructor
          · rw [hchunklen]; omega
          · exact hexEncode_range _

/-- C6: with the port open, `at_send_hex` streams exactly the uppercase hex
encoding of the input — two characters per byte, most significant nibble
first, invertible by decoding — in one UART write per chunk of at most 40
input bytes (80 output characters), and returns true precisely when every
chunk write accepts its full length. -/
theorem at_send_hex_c6 (st : at_freertos) (accept : Nat → Nat) (data : List Nat)
    (hopen : st.opened = true) (hbytes : ∀ b ∈ data, b < 256) :
    ((at_send_hex st accept data).1 = true ↔
      ∀ k, 40 * k < data.length →
        accept k = 2 * min 40 (data.length - 40 * k)) ∧
    ((at_send_hex st accept data).1 = true →
      (at_send_hex st accept data).2.flatten = hexEncode data) ∧
    (∀ w ∈ (at_send_hex st accept data).2,
      w.length ≤ 80 ∧ ∀ c ∈ w, (48 ≤ c ∧ c ≤ 57) ∨ (65 ≤ c ∧ c ≤ 70)) ∧
    hexDecode (hexEncode data) = data := by
  obtain ⟨h1, h2, h3⟩ :=
    at_send_hex_go_spec st accept hopen data.length data 0 le_rfl
  refine ⟨?_, h2, h3, hexDecode_hexEncode data hbytes⟩
  rw [at_send_hex] at *
  constructor
  · intro h k hk
    simpa using h1.mp h k hk
  · intro h
    apply h1.mpr
    intro j hj
    simpa using h j hj

/-- C6 witness: one byte `0xAB`, one write of two characters accepted in
full. -/
theorem at_send_hex_c6_witness :
    st_open.opened = true ∧ (∀ b ∈ [(171 : Nat)], b < 256) ∧
    (((at_send_hex st_open (fun _ => 2) [171]).1 = true ↔
        ∀ k, 40 * k < ([(171 : Nat)] : List Nat).length →
          (fun _ => 2) k = 2 * min 40 (([(171 : Nat)] : List Nat).length - 40 * k)) ∧
      ((at_send_hex st_open (fun _ => 2) [171]).1 = true →
        (at_send_hex st_open (fun _ => 2) [171]).2.flatten = hexEncode [171]) ∧
      (∀ w ∈ (at_send_hex st_open (fun _ => 2) [171]).2,
        w.length ≤ 80 ∧ ∀ c ∈ w, (48 ≤ c ∧ c ≤ 57) ∨ (65 ≤ c ∧ c ≤ 70)) ∧
      hexDecode (hexEncode [171]) = [171]) :=
  ⟨rfl, by decide, at_send_hex_c6 st_open (fun _ => 2) [171] rfl (by decide)⟩

end Attentive
